import Mathlib

/-!
Shallow embedding of the pySigma-validators-sigmaHQ validators
(src/sigma/validators/sigmahq/field.py and src/sigma/validators/sigmahq/metadata.py).

Python strings are modelled as lists of characters.  Case mapping uses the
ASCII `Char.toLower` / `Char.toUpper`, which agrees with Python's `str.lower` /
`str.upper` on the ASCII strings appearing in these checks.
-/

/-- Python string, modelled as its list of characters. -/
abbrev PyStr := List Char

/-- Conversion from a Lean string literal to the Python string model. -/
def strOf (s : String) : PyStr := s.data

/-- Python `s.lower()`, ASCII fragment. -/
def pyLower (s : PyStr) : PyStr := s.map Char.toLower

/-- Python substring test `needle in hay`: the needle occurs contiguously in
the haystack (the empty needle occurs in every string). -/
def strContains : PyStr → PyStr → Bool
  | [], needle => needle.isEmpty
  | hay@(_ :: t), needle => needle.isPrefixOf hay || strContains t needle

/-- Python `s.split(" ")`: split on every single space character, keeping the
empty tokens produced by leading, trailing or consecutive separators
(so the result list is never empty). -/
def pySplit : PyStr → List PyStr
  | [] => [[]]
  | c :: rest =>
    match pySplit rest with
    | [] => [[]]
    | t :: ts => if c = ' ' then [] :: t :: ts else (c :: t) :: ts

/-- Python `s.strip()`: remove leading and trailing whitespace. -/
def pyStrip (s : PyStr) : PyStr :=
  ((s.dropWhile Char.isWhitespace).reverse.dropWhile Char.isWhitespace).reverse

/-- Python `fp.split(" ")[0]`: the entry text up to the first space
(total, because `pySplit` never returns an empty list). -/
def firstWord (s : PyStr) : PyStr := (pySplit s).headD []

/-- The pySigma value modifiers imported by field.py.  Any other modifier
class is represented by `SigmaOtherModifier` together with its name. -/
inductive SigmaModifier
  | SigmaAllModifier
  | SigmaBase64Modifier
  | SigmaBase64OffsetModifier
  | SigmaRegularExpressionModifier
  | SigmaRegularExpressionDotAllFlagModifier
  | SigmaRegularExpressionFlagModifier
  | SigmaRegularExpressionIgnoreCaseFlagModifier
  | SigmaRegularExpressionMultilineFlagModifier
  | SigmaCaseSensitiveModifier
  | SigmaOtherModifier (name : PyStr)
deriving DecidableEq

/-- A value of a detection item: a pySigma SigmaString or SigmaNumber.
Python `==` on these values is structural equality. -/
inductive SigmaValue
  | str (s : PyStr)
  | num (n : Int)
deriving DecidableEq

/-- Python `str(v)` rendering of a value: the plain text of a SigmaString,
the decimal rendering of a SigmaNumber. -/
def SigmaValue.toStr : SigmaValue → PyStr
  | .str s => s
  | .num n => strOf (toString n)

/-- One leaf of a rule's match condition: optional field name, ordered
modifier list, value list. -/
structure SigmaDetectionItem where
  field : Option PyStr
  modifiers : List SigmaModifier
  value : List SigmaValue
deriving DecidableEq

/-- The boolean match-condition tree of a rule over detection items. -/
inductive SigmaDetection
  | item (i : SigmaDetectionItem)
  | conj (a b : SigmaDetection)
  | disj (a b : SigmaDetection)
  | neg (a : SigmaDetection)
deriving DecidableEq

/-- Modelled from the spec: the shared traversal of the pySigma base class
`SigmaDetectionItemValidator` (not under src/) extracts the flat list of
detection items from the rule's boolean match-condition tree, visiting every
leaf exactly once regardless of nesting or boolean operator. -/
def SigmaDetection.items : SigmaDetection → List SigmaDetectionItem
  | .item i => [i]
  | .conj a b => a.items ++ b.items
  | .disj a b => a.items ++ b.items
  | .neg a => a.items

/-- A logsource key: the (category, product, service) triple. -/
structure SigmaLogSource where
  category : Option PyStr
  product : Option PyStr
  service : Option PyStr
deriving DecidableEq

/-- The rule status enumeration. -/
inductive SigmaStatus
  | stable
  | test
  | experimental
  | deprecated
  | unsupported
deriving DecidableEq

/-- The rule level enumeration (severity of the detection itself). -/
inductive SigmaLevel
  | informational
  | low
  | medium
  | high
  | critical
deriving DecidableEq

/-- The rule under validation, restricted to the attributes the validators
read.  `date` is opaque to the checks (only its absence is tested), so it is
modelled as an optional string. -/
structure SigmaRule where
  status : Option SigmaStatus
  date : Option PyStr
  description : Option PyStr
  level : Option SigmaLevel
  falsepositives : List PyStr
  references : List PyStr
  logsource : SigmaLogSource
  detection : SigmaDetection
  custom_attributes : List (PyStr × PyStr)
deriving DecidableEq

/-- Severity of a reported issue (ordered LOW < MEDIUM < HIGH < CRITICAL). -/
inductive SigmaValidationIssueSeverity
  | low
  | medium
  | high
  | critical
deriving DecidableEq

/-- Modelled from the spec: the pySigma `SigmaValidationIssue` base class
(not under src/) stores the originating rule(s) of an issue as a list; a
validator may pass a single rule or a list of rules, both stored as the list
of originating rules.  Each constructor is one of the concrete issue
dataclasses of field.py / metadata.py with its extra fields. -/
inductive SigmaValidationIssue
  | SigmahqSpaceFieldNameIssue (rules : List SigmaRule) (field : PyStr)
  | SigmahqFieldnameCastIssue (rules : List SigmaRule) (field : PyStr)
  | SigmahqInvalidFieldnameIssue (rules : List SigmaRule) (field : PyStr)
  | SigmahqInvalidAllModifierIssue (rules : List SigmaRule) (field : Option PyStr)
  | SigmahqFieldDuplicateValueIssue (rules : List SigmaRule) (field : Option PyStr) (value : PyStr)
  | SigmahqFieldUserIssue (rules : List SigmaRule) (field : PyStr) (user : PyStr)
  | SigmahqStatusExistenceIssue (rules : List SigmaRule)
  | SigmahqStatusIssue (rules : List SigmaRule)
  | SigmahqDateExistenceIssue (rules : List SigmaRule)
  | SigmahqDescriptionExistenceIssue (rules : List SigmaRule)
  | SigmahqDescriptionLengthIssue (rules : List SigmaRule)
  | SigmahqLevelExistenceIssue (rules : List SigmaRule)
  | SigmahqFalsepositivesCapitalIssue (rules : List SigmaRule) (word : PyStr)
  | SigmahqFalsepositivesBannedWordIssue (rules : List SigmaRule) (word : PyStr)
  | SigmahqFalsepositivesTypoWordIssue (rules : List SigmaRule) (word : PyStr)
  | SigmahqLinkInDescriptionIssue (rules : List SigmaRule)
  | SigmahqUnknownFieldIssue (rules : List SigmaRule) (fieldname : List PyStr)
deriving DecidableEq

/-- The list of originating rules stored in an issue. -/
def SigmaValidationIssue.rulesOf : SigmaValidationIssue → List SigmaRule
  | .SigmahqSpaceFieldNameIssue r _ => r
  | .SigmahqFieldnameCastIssue r _ => r
  | .SigmahqInvalidFieldnameIssue r _ => r
  | .SigmahqInvalidAllModifierIssue r _ => r
  | .SigmahqFieldDuplicateValueIssue r _ _ => r
  | .SigmahqFieldUserIssue r _ _ => r
  | .SigmahqStatusExistenceIssue r => r
  | .SigmahqStatusIssue r => r
  | .SigmahqDateExistenceIssue r => r
  | .SigmahqDescriptionExistenceIssue r => r
  | .SigmahqDescriptionLengthIssue r => r
  | .SigmahqLevelExistenceIssue r => r
  | .SigmahqFalsepositivesCapitalIssue r _ => r
  | .SigmahqFalsepositivesBannedWordIssue r _ => r
  | .SigmahqFalsepositivesTypoWordIssue r _ => r
  | .SigmahqLinkInDescriptionIssue r => r
  | .SigmahqUnknownFieldIssue r _ => r

/-- The severity declared by each issue dataclass (ClassVar `severity`). -/
def SigmaValidationIssue.severityOf : SigmaValidationIssue → SigmaValidationIssueSeverity
  | .SigmahqSpaceFieldNameIssue _ _ => .high
  | .SigmahqFieldnameCastIssue _ _ => .high
  | .SigmahqInvalidFieldnameIssue _ _ => .high
  | .SigmahqInvalidAllModifierIssue _ _ => .high
  | .SigmahqFieldDuplicateValueIssue _ _ _ => .high
  | .SigmahqFieldUserIssue _ _ _ => .high
  | .SigmahqStatusExistenceIssue _ => .medium
  | .SigmahqStatusIssue _ => .high
  | .SigmahqDateExistenceIssue _ => .medium
  | .SigmahqDescriptionExistenceIssue _ => .medium
  | .SigmahqDescriptionLengthIssue _ => .medium
  | .SigmahqLevelExistenceIssue _ => .medium
  | .SigmahqFalsepositivesCapitalIssue _ _ => .medium
  | .SigmahqFalsepositivesBannedWordIssue _ _ => .medium
  | .SigmahqFalsepositivesTypoWordIssue _ _ => .medium
  | .SigmahqLinkInDescriptionIssue _ => .medium
  | .SigmahqUnknownFieldIssue _ _ => .medium

/-- Modelled from the spec: src/sigma/validators/sigmahq/config.py (class
ConfigHQ) is not under src/.  Per the spec, the catalog maps logsource triples
to the list of valid field names (exact case), and carries flat banned-word,
typo-word and link-marker lists.  The lowercased "unicast" table is derived
from the cast table (see the validators below). -/
structure ConfigHQ where
  sigmahq_logsource_cast : List (SigmaLogSource × List PyStr)
  sigmahq_fp_banned_word : List PyStr
  sigmahq_fp_typo_word : List PyStr
  sigmahq_link_in_description : List PyStr

/-- Python dict lookup on the catalog: exact structural equality of the
(category, product, service) triple against the catalog keys. -/
def lookupLogsource (m : List (SigmaLogSource × List PyStr)) (k : SigmaLogSource) : Option (List PyStr) :=
  match m with
  | [] => none
  | (k2, v) :: rest => if k2 = k then some v else lookupLogsource rest k

/-! Validators of src/sigma/validators/sigmahq/field.py.  Each detection-item
validator takes the rule being validated (Python `self.rule`, set by the
pySigma traversal) explicitly; its rule-level `validate` applies it to every
detection item of the rule. -/

/-- field.py lines 42-48 (`SigmahqSpaceFieldNameValidator.validate_detection_item`):
fires when the field name is truthy (present and nonempty) and contains a
space (`" " in detection_item.field`). -/
def SigmahqSpaceFieldNameValidator.validate_detection_item (rule : SigmaRule) (detection_item : SigmaDetectionItem) : List SigmaValidationIssue :=
  match detection_item.field with
  | some f => if f ≠ [] ∧ strContains f (strOf " ") then [.SigmahqSpaceFieldNameIssue [rule] f] else []
  | none => []

/-- The inherited `SigmaDetectionItemValidator.validate` traversal applied to
the space-in-field-name check. -/
def SigmahqSpaceFieldNameValidator.validate (rule : SigmaRule) : List SigmaValidationIssue :=
  (SigmaDetection.items rule.detection).flatMap (SigmahqSpaceFieldNameValidator.validate_detection_item rule)

/-- field.py lines 68-78 (`SigmahqFieldnameCastValidator.validate_detection_item`):
`fields` and `unifields` are the catalog entry and its lowercased variant set
by `validate` before the traversal runs. -/
def SigmahqFieldnameCastValidator.validate_detection_item (rule : SigmaRule) (fields unifields : List PyStr) (detection_item : SigmaDetectionItem) : List SigmaValidationIssue :=
  match detection_item.field with
  | some f => if pyLower f ∈ unifields ∧ f ∉ fields then [.SigmahqFieldnameCastIssue [rule] f] else []
  | none => []

/-- field.py lines 61-66 (`SigmahqFieldnameCastValidator.validate`): traverse
only when the rule's logsource is a key of the catalog; per the spec the
unicast entry of a cast key is its field list lowercased. -/
def SigmahqFieldnameCastValidator.validate (config : ConfigHQ) (rule : SigmaRule) : List SigmaValidationIssue :=
  match lookupLogsource config.sigmahq_logsource_cast rule.logsource with
  | some fields =>
      (SigmaDetection.items rule.detection).flatMap
        (SigmahqFieldnameCastValidator.validate_detection_item rule fields (fields.map pyLower))
  | none => []

/-- field.py lines 98-107 (`SigmahqInvalidFieldnameValidator.validate_detection_item`). -/
def SigmahqInvalidFieldnameValidator.validate_detection_item (rule : SigmaRule) (unifields : List PyStr) (detection_item : SigmaDetectionItem) : List SigmaValidationIssue :=
  match detection_item.field with
  | some f => if pyLower f ∉ unifields then [.SigmahqInvalidFieldnameIssue [rule] f] else []
  | none => []

/-- field.py lines 91-96 (`SigmahqInvalidFieldnameValidator.validate`): same
logsource precondition and lookup as the cast validator. -/
def SigmahqInvalidFieldnameValidator.validate (config : ConfigHQ) (rule : SigmaRule) : List SigmaValidationIssue :=
  match lookupLogsource config.sigmahq_logsource_cast rule.logsource with
  | some fields =>
      (SigmaDetection.items rule.detection).flatMap
        (SigmahqInvalidFieldnameValidator.validate_detection_item rule (fields.map pyLower))
  | none => []

/-- field.py lines 120-129: the FIRST definition of
`SigmahqInvalidAllModifierValidator.validate_detection_item` (shadowed at
module load by the identical second definition at lines 189-201). -/
def SigmahqInvalidAllModifierValidatorFirst.validate_detection_item (rule : SigmaRule) (detection_item : SigmaDetectionItem) : List SigmaValidationIssue :=
  if SigmaModifier.SigmaAllModifier ∈ detection_item.modifiers ∧ detection_item.value.length < 2 then
    [.SigmahqInvalidAllModifierIssue [rule] detection_item.field]
  else []

/-- field.py lines 192-201: the SECOND (surviving) definition of
`SigmahqInvalidAllModifierValidator.validate_detection_item`. -/
def SigmahqInvalidAllModifierValidator.validate_detection_item (rule : SigmaRule) (detection_item : SigmaDetectionItem) : List SigmaValidationIssue :=
  if SigmaModifier.SigmaAllModifier ∈ detection_item.modifiers ∧ detection_item.value.length < 2 then
    [.SigmahqInvalidAllModifierIssue [rule] detection_item.field]
  else []

/-- Traversal for the surviving invalid-all-modifier validator. -/
def SigmahqInvalidAllModifierValidator.validate (rule : SigmaRule) : List SigmaValidationIssue :=
  (SigmaDetection.items rule.detection).flatMap (SigmahqInvalidAllModifierValidator.validate_detection_item rule)

/-- field.py lines 147-156: the condition under which the duplicate-value
check compares raw value identity (a case-sensitivity-implying modifier is
present in the detection item's modifier list). -/
abbrev SigmahqFieldDuplicateValueValidator.CaseSensitiveValue (detection_item : SigmaDetectionItem) : Prop :=
  SigmaModifier.SigmaBase64Modifier ∈ detection_item.modifiers
    ∨ SigmaModifier.SigmaBase64OffsetModifier ∈ detection_item.modifiers
    ∨ SigmaModifier.SigmaRegularExpressionDotAllFlagModifier ∈ detection_item.modifiers
    ∨ SigmaModifier.SigmaRegularExpressionFlagModifier ∈ detection_item.modifiers
    ∨ SigmaModifier.SigmaRegularExpressionIgnoreCaseFlagModifier ∈ detection_item.modifiers
    ∨ SigmaModifier.SigmaRegularExpressionModifier ∈ detection_item.modifiers
    ∨ SigmaModifier.SigmaRegularExpressionMultilineFlagModifier ∈ detection_item.modifiers
    ∨ SigmaModifier.SigmaCaseSensitiveModifier ∈ detection_item.modifiers

/-- field.py lines 157-167: scan of the value list with the raw-equality
`value_see` accumulator; returns on the first value already seen. -/
def SigmahqFieldDuplicateValueValidator.scanRaw (rule : SigmaRule) (field : Option PyStr) : List SigmaValue → List SigmaValue → List SigmaValidationIssue
  | _, [] => []
  | value_see, v :: rest =>
    if v ∈ value_see then [.SigmahqFieldDuplicateValueIssue [rule] field v.toStr]
    else SigmahqFieldDuplicateValueValidator.scanRaw rule field (value_see ++ [v]) rest

/-- field.py lines 169-179: scan of the value list with the lowercased
string-rendering `value_see` accumulator. -/
def SigmahqFieldDuplicateValueValidator.scanLower (rule : SigmaRule) (field : Option PyStr) : List PyStr → List SigmaValue → List SigmaValidationIssue
  | _, [] => []
  | value_see, v :: rest =>
    if pyLower v.toStr ∈ value_see then [.SigmahqFieldDuplicateValueIssue [rule] field v.toStr]
    else SigmahqFieldDuplicateValueValidator.scanLower rule field (value_see ++ [pyLower v.toStr]) rest

/-- field.py lines 143-179 (`SigmahqFieldDuplicateValueValidator.validate_detection_item`). -/
def SigmahqFieldDuplicateValueValidator.validate_detection_item (rule : SigmaRule) (detection_item : SigmaDetectionItem) : List SigmaValidationIssue :=
  if SigmahqFieldDuplicateValueValidator.CaseSensitiveValue detection_item then
    SigmahqFieldDuplicateValueValidator.scanRaw rule detection_item.field [] detection_item.value
  else
    SigmahqFieldDuplicateValueValidator.scanLower rule detection_item.field [] detection_item.value

/-- Traversal for the duplicate-value validator. -/
def SigmahqFieldDuplicateValueValidator.validate (rule : SigmaRule) : List SigmaValidationIssue :=
  (SigmaDetection.items rule.detection).flatMap (SigmahqFieldDuplicateValueValidator.validate_detection_item rule)

/-- field.py lines 215-230 (`SigmahqFieldUserValidator.validate_detection_item`):
fires when the field is truthy, its lowercase form contains "user", the value
list has exactly one element, and the rendered value contains "AUTORI" or
"AUTHORI".  The single-value guard `len(detection_item.value) == 1` is
rendered as the `[v]` pattern. -/
def SigmahqFieldUserValidator.validate_detection_item (rule : SigmaRule) (detection_item : SigmaDetectionItem) : List SigmaValidationIssue :=
  match detection_item.field, detection_item.value with
  | some f, [v] =>
    if f ≠ [] ∧ strContains (pyLower f) (strOf "user") then
      if strContains v.toStr (strOf "AUTORI") ∨ strContains v.toStr (strOf "AUTHORI") then
        [.SigmahqFieldUserIssue [rule] f v.toStr]
      else []
    else []
  | _, _ => []

/-- Traversal for the user-field-localization validator. -/
def SigmahqFieldUserValidator.validate (rule : SigmaRule) : List SigmaValidationIssue :=
  (SigmaDetection.items rule.detection).flatMap (SigmahqFieldUserValidator.validate_detection_item rule)

/-! Validators of src/sigma/validators/sigmahq/metadata.py. -/

/-- metadata.py lines 26-30 (`SigmahqStatusExistenceValidator.validate`). -/
def SigmahqStatusExistenceValidator.validate (rule : SigmaRule) : List SigmaValidationIssue :=
  match rule.status with
  | none => [.SigmahqStatusExistenceIssue [rule]]
  | some _ => []

/-- metadata.py lines 44-48 (`SigmahqStatusValidator.validate`): a set status
is truthy; fires when its name is DEPRECATED or UNSUPPORTED. -/
def SigmahqStatusValidator.validate (rule : SigmaRule) : List SigmaValidationIssue :=
  match rule.status with
  | some s => if s = .deprecated ∨ s = .unsupported then [.SigmahqStatusIssue [rule]] else []
  | none => []

/-- metadata.py lines 62-66 (`SigmahqDateExistenceValidator.validate`). -/
def SigmahqDateExistenceValidator.validate (rule : SigmaRule) : List SigmaValidationIssue :=
  match rule.date with
  | none => [.SigmahqDateExistenceIssue [rule]]
  | some _ => []

/-- metadata.py lines 80-84 (`SigmahqDescriptionExistenceValidator.validate`). -/
def SigmahqDescriptionExistenceValidator.validate (rule : SigmaRule) : List SigmaValidationIssue :=
  match rule.description with
  | none => [.SigmahqDescriptionExistenceIssue [rule]]
  | some _ => []

/-- metadata.py lines 98-102 (`SigmahqDescriptionLengthValidator.validate`):
fires when the description is present and shorter than 16 characters. -/
def SigmahqDescriptionLengthValidator.validate (rule : SigmaRule) : List SigmaValidationIssue :=
  match rule.description with
  | some d => if d.length < 16 then [.SigmahqDescriptionLengthIssue [rule]] else []
  | none => []

/-- metadata.py lines 116-120 (`SigmahqLevelExistenceValidator.validate`):
the source passes the one-element list `[rule]` where the sibling validators
pass the bare rule; the base class stores both as the same rule list. -/
def SigmahqLevelExistenceValidator.validate (rule : SigmaRule) : List SigmaValidationIssue :=
  match rule.level with
  | none => [.SigmahqLevelExistenceIssue [rule]]
  | some _ => []

/-- metadata.py lines 137-146, the loop body of
`SigmahqFalsepositivesCapitalValidator.validate`: appends one issue, carrying
the entry's first word, per entry whose first character changes under
upper-casing (`fp[0].upper() != fp[0]`).  Evaluating `fp[0]` on an empty
entry raises IndexError, modelled as `none`. -/
def SigmahqFalsepositivesCapitalValidator.go (rule : SigmaRule) : List PyStr → List SigmaValidationIssue → Option (List SigmaValidationIssue)
  | [], acc => some acc
  | fp :: rest, acc =>
    match fp with
    | [] => none
    | c :: _ =>
      if c.toUpper ≠ c then
        SigmahqFalsepositivesCapitalValidator.go rule rest (acc ++ [.SigmahqFalsepositivesCapitalIssue [rule] (firstWord fp)])
      else
        SigmahqFalsepositivesCapitalValidator.go rule rest acc

/-- metadata.py lines 137-146 (`SigmahqFalsepositivesCapitalValidator.validate`);
the `if rule.falsepositives:` guard is the empty-list base case of the loop. -/
def SigmahqFalsepositivesCapitalValidator.validate (rule : SigmaRule) : Option (List SigmaValidationIssue) :=
  SigmahqFalsepositivesCapitalValidator.go rule rule.falsepositives []

/-- metadata.py lines 163-173 (`SigmahqFalsepositivesBannedWordValidator.validate`):
for every entry, every space-separated token and every banned word, append an
issue carrying the raw token when its stripped lowercase form equals the
banned word. -/
def SigmahqFalsepositivesBannedWordValidator.validate (config : ConfigHQ) (rule : SigmaRule) : List SigmaValidationIssue :=
  rule.falsepositives.flatMap fun fp_entry =>
    (pySplit fp_entry).flatMap fun fp =>
      config.sigmahq_fp_banned_word.filterMap fun banned_word =>
        if pyStrip (pyLower fp) = banned_word then
          some (.SigmahqFalsepositivesBannedWordIssue [rule] fp)
        else none

/-- metadata.py lines 190-198 (`SigmahqFalsepositivesTypoWordValidator.validate`):
as the banned-word check, but the stripped lowercase token need only occur as
a substring of the typo-word entry (`fp.lower().strip() in typo`). -/
def SigmahqFalsepositivesTypoWordValidator.validate (config : ConfigHQ) (rule : SigmaRule) : List SigmaValidationIssue :=
  rule.falsepositives.flatMap fun fp_entry =>
    (pySplit fp_entry).flatMap fun fp =>
      config.sigmahq_fp_typo_word.filterMap fun typo =>
        if strContains typo (pyStrip (pyLower fp)) then
          some (.SigmahqFalsepositivesTypoWordIssue [rule] fp)
        else none

/-- metadata.py lines 216-218, the marker loop of
`SigmahqLinkInDescriptionValidator.validate`: report once, on the first
marker contained in the lowercased description. -/
def SigmahqLinkInDescriptionValidator.go (rule : SigmaRule) (d : PyStr) : List PyStr → List SigmaValidationIssue
  | [] => []
  | link :: rest =>
    if strContains (pyLower d) link then [.SigmahqLinkInDescriptionIssue [rule]]
    else SigmahqLinkInDescriptionValidator.go rule d rest

/-- metadata.py lines 214-219 (`SigmahqLinkInDescriptionValidator.validate`):
runs only when the description is truthy and the references list is empty. -/
def SigmahqLinkInDescriptionValidator.validate (config : ConfigHQ) (rule : SigmaRule) : List SigmaValidationIssue :=
  match rule.description with
  | some d =>
      if d ≠ [] ∧ rule.references = [] then
        SigmahqLinkInDescriptionValidator.go rule d config.sigmahq_link_in_description
      else []
  | none => []

/-- metadata.py lines 234-238 (`SigmahqUnknownFieldValidator.validate`). -/
def SigmahqUnknownFieldValidator.validate (rule : SigmaRule) : List SigmaValidationIssue :=
  if rule.custom_attributes.length > 0 then
    [.SigmahqUnknownFieldIssue [rule] (rule.custom_attributes.map Prod.fst)]
  else []

/-- Modelled from the spec: the Validator Registry's default full check set in
declaration order (the registry itself is not under src/); the shadowed first
definition of the invalid-all-modifier validator is not registered, only the
surviving one runs.  The falsepositive-capitalization check may raise, so the
run of the full set is fallible. -/
def fullValidate (config : ConfigHQ) (rule : SigmaRule) : Option (List SigmaValidationIssue) :=
  match SigmahqFalsepositivesCapitalValidator.validate rule with
  | none => none
  | some capital => some (SigmahqStatusExistenceValidator.validate rule
    ++ SigmahqStatusValidator.validate rule
    ++ SigmahqDateExistenceValidator.validate rule
    ++ SigmahqDescriptionExistenceValidator.validate rule
    ++ SigmahqDescriptionLengthValidator.validate rule
    ++ SigmahqLevelExistenceValidator.validate rule
    ++ capital
    ++ SigmahqFalsepositivesBannedWordValidator.validate config rule
    ++ SigmahqFalsepositivesTypoWordValidator.validate config rule
    ++ SigmahqLinkInDescriptionValidator.validate config rule
    ++ SigmahqUnknownFieldValidator.validate rule
    ++ SigmahqSpaceFieldNameValidator.validate rule
    ++ SigmahqFieldnameCastValidator.validate config rule
    ++ SigmahqInvalidFieldnameValidator.validate config rule
    ++ SigmahqInvalidAllModifierValidator.validate rule
    ++ SigmahqFieldDuplicateValueValidator.validate rule
    ++ SigmahqFieldUserValidator.validate rule)

/-! Concrete test data. -/

/-- A concrete logsource used by the concrete rules below. -/
def lsProcess : SigmaLogSource :=
  ⟨some (strOf "process_creation"), some (strOf "windows"), none⟩

/-- A concrete well-formed rule; the concrete cases below vary its fields. -/
def ruleBase : SigmaRule where
  status := some .test
  date := some (strOf "2024-01-01")
  description := some (strOf "A sufficiently long description.")
  level := some .high
  falsepositives := []
  references := []
  logsource := lsProcess
  detection := .item ⟨some (strOf "Image"), [], []⟩
  custom_attributes := []

/-- Detection item with the localized value of the user-field test case. -/
def diAutorite : SigmaDetectionItem :=
  ⟨some (strOf "TargetUserName"), [], [.str (strOf "NT AUTORITE\\Tout le monde")]⟩

/-- Detection item with the English value of the user-field test case. -/
def diAuthority : SigmaDetectionItem :=
  ⟨some (strOf "TargetUserName"), [], [.str (strOf "NT AUTHORITY\\Everyone")]⟩

example : pyLower (strOf "AbC") = strOf "abc" := by decide
example : strContains (strOf "NT AUTHORITY") (strOf "AUTHORI") = true := by decide
example : strContains (strOf "abc") [] = true := by decide
example : pySplit (strOf "a  b") = [strOf "a", [], strOf "b"] := by decide
example : firstWord (strOf "none identified") = strOf "none" := by decide

/-- C1, counterexample: contrary to the claim, the user-field-localization
check DOES fire on `field=TargetUserName, value=["NT AUTHORITY\\Everyone"]`,
because "AUTHORI" is a substring of "AUTHORITY". -/
theorem claim1_counterexample :
    SigmahqFieldUserValidator.validate_detection_item ruleBase diAuthority ≠ [] := by
  decide

/-- C1, amended: for a DetectionItem with field "TargetUserName" and the single
value "NT AUTORITE\\Tout le monde" the user-field-localization check fires with
exactly one issue, and for the single value "NT AUTHORITY\\Everyone" it ALSO
fires with exactly one issue, since "AUTHORI" occurs in "AUTHORITY". -/
theorem claim1_amended :
    SigmahqFieldUserValidator.validate_detection_item ruleBase diAutorite =
      [.SigmahqFieldUserIssue [ruleBase] (strOf "TargetUserName") (strOf "NT AUTORITE\\Tout le monde")] ∧
    SigmahqFieldUserValidator.validate_detection_item ruleBase diAuthority =
      [.SigmahqFieldUserIssue [ruleBase] (strOf "TargetUserName") (strOf "NT AUTHORITY\\Everyone")] := by
  constructor
  · decide
  · decide

/-- A rule whose falsepositives list contains one empty-string entry. -/
def ruleEmptyFp : SigmaRule := { ruleBase with falsepositives := [[]] }

/-- C3: the falsepositive-capitalization check evaluates `fp[0]` on the empty
falsepositive entry and raises IndexError (modelled as `none`) instead of
treating the entry as not applicable, contradicting the spec's propagation
policy for absence-of-data cases. -/
theorem claim3_empty_falsepositive_crashes :
    SigmahqFalsepositivesCapitalValidator.validate ruleEmptyFp = none := by
  decide

/-- C8: the invalid-all-modifier check fires iff the match-all-values modifier
is present and the value list has fewer than 2 entries; with the modifier and
exactly one value it emits the one issue carrying the field; with two or more
values it emits nothing. -/
theorem claim8_invalid_all_modifier (rule : SigmaRule) (detection_item : SigmaDetectionItem) :
    (SigmahqInvalidAllModifierValidator.validate_detection_item rule detection_item ≠ [] ↔
      SigmaModifier.SigmaAllModifier ∈ detection_item.modifiers ∧ detection_item.value.length < 2) ∧
    (SigmaModifier.SigmaAllModifier ∈ detection_item.modifiers → detection_item.value.length = 1 →
      SigmahqInvalidAllModifierValidator.validate_detection_item rule detection_item =
        [.SigmahqInvalidAllModifierIssue [rule] detection_item.field]) ∧
    (2 ≤ detection_item.value.length →
      SigmahqInvalidAllModifierValidator.validate_detection_item rule detection_item = []) := by
  by_cases h : SigmaModifier.SigmaAllModifier ∈ detection_item.modifiers ∧
      detection_item.value.length < 2
  · refine ⟨?_, ?_, ?_⟩
    · simp [SigmahqInvalidAllModifierValidator.validate_detection_item, h]
    · intro _ _
      simp [SigmahqInvalidAllModifierValidator.validate_detection_item, h]
    · intro hlen
      exact absurd h.2 (by omega)
  · refine ⟨?_, ?_, ?_⟩
    · simp [SigmahqInvalidAllModifierValidator.validate_detection_item, h]
    · intro hmem hlen
      exact absurd ⟨hmem, by omega⟩ h
    · intro _
      simp [SigmahqInvalidAllModifierValidator.validate_detection_item, h]

/-- Detection item with the match-all-values modifier and a single value. -/
def diAllSingle : SigmaDetectionItem :=
  ⟨some (strOf "CommandLine"), [.SigmaAllModifier], [.str (strOf "x")]⟩

/-- C8 witness: the theorem instantiated at a concrete detection item with the
all modifier and exactly one value. -/
theorem claim8_invalid_all_modifier_witness :
    SigmahqInvalidAllModifierValidator.validate_detection_item ruleBase diAllSingle =
      [.SigmahqInvalidAllModifierIssue [ruleBase] (some (strOf "CommandLine"))] :=
  (claim8_invalid_all_modifier ruleBase diAllSingle).2.1 (by decide) (by decide)

/-- The firing condition of the falsepositive-capitalization check on one
entry: the first character is not uppercase, i.e. changes under upper-casing
(Python `fp[0].upper() != fp[0]`); an empty entry has no first character. -/
def falsepositiveNotCapitalized (fp : PyStr) : Bool :=
  match fp with
  | [] => false
  | c :: _ => c.toUpper ≠ c

/-- A rule with an empty falsepositive entry next to a capitalized one. -/
def ruleFpWithEmpty : SigmaRule :=
  { ruleBase with falsepositives := [[], strOf "Legitimate admin"] }

/-- C4, counterexample: a rule with falsepositives `["", "Legitimate admin"]`
has zero entries whose first character is not uppercase, so the claim predicts
the check emits zero issues; instead the check crashes on the empty entry
(IndexError on `fp[0]`, modelled as `none`). -/
theorem claim4_counterexample :
    ruleFpWithEmpty.falsepositives.countP falsepositiveNotCapitalized = 0 ∧
    SigmahqFalsepositivesCapitalValidator.validate ruleFpWithEmpty ≠ some [] := by
  constructor
  · decide
  · decide

/-- Helper: the capitalization loop over entries that are all nonempty
appends exactly one issue, carrying the entry's first word, per entry whose
first character is not uppercase. -/
theorem SigmahqFalsepositivesCapitalValidator.go_eq (rule : SigmaRule) (l : List PyStr)
    (acc : List SigmaValidationIssue) (h : ∀ fp ∈ l, fp ≠ []) :
    SigmahqFalsepositivesCapitalValidator.go rule l acc =
      some (acc ++ l.filterMap fun fp =>
        if falsepositiveNotCapitalized fp then
          some (.SigmahqFalsepositivesCapitalIssue [rule] (firstWord fp))
        else none) := by
  induction l generalizing acc with
  | nil => simp [SigmahqFalsepositivesCapitalValidator.go]
  | cons fp rest ih =>
    have hfp : fp ≠ [] := h fp (List.mem_cons_self fp rest)
    have hrest : ∀ x ∈ rest, x ≠ [] := fun x hx => h x (List.mem_cons_of_mem fp hx)
    obtain ⟨c, cs, rfl⟩ : ∃ c cs, fp = c :: cs := by
      cases fp with
      | nil => exact absurd rfl hfp
      | cons c cs => exact ⟨c, cs, rfl⟩
    by_cases hc : c.toUpper ≠ c
    · simp only [SigmahqFalsepositivesCapitalValidator.go, if_pos hc, ih _ hrest,
        List.filterMap_cons, falsepositiveNotCapitalized]
      simp [hc]
    · simp only [SigmahqFalsepositivesCapitalValidator.go, if_neg hc, ih _ hrest,
        List.filterMap_cons, falsepositiveNotCapitalized]
      simp [hc]

/-- C4, amended: for every rule all of whose falsepositive entries are
nonempty, the falsepositive-capitalization check emits exactly one issue per
entry whose first character is not uppercase, each carrying the entry's first
word (the entry text up to the first space). -/
theorem claim4_amended (rule : SigmaRule) (h : ∀ fp ∈ rule.falsepositives, fp ≠ []) :
    SigmahqFalsepositivesCapitalValidator.validate rule =
      some (rule.falsepositives.filterMap fun fp =>
        if falsepositiveNotCapitalized fp then
          some (.SigmahqFalsepositivesCapitalIssue [rule] (firstWord fp))
        else none) := by
  unfold SigmahqFalsepositivesCapitalValidator.validate
  rw [SigmahqFalsepositivesCapitalValidator.go_eq rule rule.falsepositives [] h]
  simp

/-- A rule with one non-capitalized and one capitalized falsepositive entry. -/
def ruleFpLower : SigmaRule :=
  { ruleBase with falsepositives := [strOf "none identified", strOf "Legitimate use"] }

/-- C4 witness: the amended theorem instantiated at a rule with the nonempty
entries "none identified" and "Legitimate use" yields exactly the one issue
carrying the first word "none". -/
theorem claim4_amended_witness :
    SigmahqFalsepositivesCapitalValidator.validate ruleFpLower =
      some [.SigmahqFalsepositivesCapitalIssue [ruleFpLower] (strOf "none")] :=
  (claim4_amended ruleFpLower (by decide)).trans (by decide)

/-- Helper: the cast check returns nothing when the catalog lookup misses. -/
theorem castValidateOfLookupNone (config : ConfigHQ) (rule : SigmaRule)
    (h : lookupLogsource config.sigmahq_logsource_cast rule.logsource = none) :
    SigmahqFieldnameCastValidator.validate config rule = [] := by
  unfold SigmahqFieldnameCastValidator.validate
  rw [h]

/-- Helper: the invalid-field-name check returns nothing when the catalog
lookup misses. -/
theorem invalidFieldnameValidateOfLookupNone (config : ConfigHQ) (rule : SigmaRule)
    (h : lookupLogsource config.sigmahq_logsource_cast rule.logsource = none) :
    SigmahqInvalidFieldnameValidator.validate config rule = [] := by
  unfold SigmahqInvalidFieldnameValidator.validate
  rw [h]

/-- C6: for every rule whose logsource triple has no exact structural match
among the catalog keys, the field-cast-mismatch check and the
invalid-field-name check both return the empty issue list, whatever detection
items the rule has; both checks gate their traversal on the identical lookup
into the cast catalog. -/
theorem claim6_unknown_logsource (config : ConfigHQ) (rule : SigmaRule)
    (h : lookupLogsource config.sigmahq_logsource_cast rule.logsource = none) :
    SigmahqFieldnameCastValidator.validate config rule = [] ∧
    SigmahqInvalidFieldnameValidator.validate config rule = [] :=
  ⟨castValidateOfLookupNone config rule h, invalidFieldnameValidateOfLookupNone config rule h⟩

/-- A catalog holding one logsource other than `lsProcess`, so that lookups
for the concrete rules below miss it. -/
def cfgOther : ConfigHQ where
  sigmahq_logsource_cast :=
    [(⟨some (strOf "network_connection"), some (strOf "windows"), none⟩,
      [strOf "Image", strOf "DestinationIp"])]
  sigmahq_fp_banned_word := [strOf "none"]
  sigmahq_fp_typo_word := [strOf "legitim", strOf "notmal"]
  sigmahq_link_in_description := [strOf "http"]

/-- C6 witness: the theorem instantiated at the concrete catalog `cfgOther`,
whose only key differs from the rule's logsource. -/
theorem claim6_unknown_logsource_witness :
    SigmahqFieldnameCastValidator.validate cfgOther ruleBase = [] ∧
    SigmahqInvalidFieldnameValidator.validate cfgOther ruleBase = [] :=
  claim6_unknown_logsource cfgOther ruleBase (by decide)

/-- The end-to-end rule of C7: all four metadata fields absent, no
falsepositives, and a single detection item with field "User Name". -/
def ruleC7 : SigmaRule where
  status := none
  date := none
  description := none
  level := none
  falsepositives := []
  references := []
  logsource := lsProcess
  detection := .item ⟨some (strOf "User Name"), [], []⟩
  custom_attributes := []

/-- C7: running the full check set over `ruleC7` (with its logsource absent
from the catalog) yields exactly the five issues missing-status,
missing-date, missing-description, missing-level and space-in-field-name; in
particular description-too-short does not fire when the description is
absent. -/
theorem claim7_end_to_end (config : ConfigHQ)
    (h : lookupLogsource config.sigmahq_logsource_cast ruleC7.logsource = none) :
    fullValidate config ruleC7 =
      some [.SigmahqStatusExistenceIssue [ruleC7],
            .SigmahqDateExistenceIssue [ruleC7],
            .SigmahqDescriptionExistenceIssue [ruleC7],
            .SigmahqLevelExistenceIssue [ruleC7],
            .SigmahqSpaceFieldNameIssue [ruleC7] (strOf "User Name")] := by
  have hcast := castValidateOfLookupNone config ruleC7 h
  have hinv := invalidFieldnameValidateOfLookupNone config ruleC7 h
  unfold fullValidate
  rw [show SigmahqFalsepositivesCapitalValidator.validate ruleC7 = some [] from rfl]
  rw [hcast, hinv]
  rfl

/-- C7 witness: the theorem instantiated at the concrete catalog `cfgOther`,
which does not hold the rule's logsource. -/
theorem claim7_end_to_end_witness :
    fullValidate cfgOther ruleC7 =
      some [.SigmahqStatusExistenceIssue [ruleC7],
            .SigmahqDateExistenceIssue [ruleC7],
            .SigmahqDescriptionExistenceIssue [ruleC7],
            .SigmahqLevelExistenceIssue [ruleC7],
            .SigmahqSpaceFieldNameIssue [ruleC7] (strOf "User Name")] :=
  claim7_end_to_end cfgOther (by decide)

/-- The normalization of the duplicate-value check, as the claim states it:
raw value identity when a case-sensitivity-implying modifier is present on
the detection item, otherwise the lowercased string rendering. -/
def dupNormalize (detection_item : SigmaDetectionItem) (v : SigmaValue) : SigmaValue ⊕ PyStr :=
  if SigmahqFieldDuplicateValueValidator.CaseSensitiveValue detection_item then Sum.inl v
  else Sum.inr (pyLower v.toStr)

/-- Generic form of the two duplicate scans of field.py lines 157-179: the
keys of the values already seen accumulate, and the scan stops at the first
value whose key was already seen. -/
def scanDup {κ : Type} [DecidableEq κ] (k : SigmaValue → κ)
    (mk : SigmaValue → List SigmaValidationIssue) : List κ → List SigmaValue → List SigmaValidationIssue
  | _, [] => []
  | seen, v :: rest => if k v ∈ seen then mk v else scanDup k mk (seen ++ [k v]) rest

/-- Under a case-sensitivity-implying modifier the normalization is the
injection of the raw value. -/
theorem dupNormalize_injective_of_cs (detection_item : SigmaDetectionItem)
    (hcs : SigmahqFieldDuplicateValueValidator.CaseSensitiveValue detection_item) :
    Function.Injective (dupNormalize detection_item) := by
  intro a b hab
  simpa [dupNormalize, if_pos hcs] using hab

/-- The raw-equality scan is the generic scan keyed by the normalization,
when a case-sensitivity-implying modifier is present. -/
theorem scanRaw_eq_scanDup (rule : SigmaRule) (field : Option PyStr) (detection_item : SigmaDetectionItem)
    (hcs : SigmahqFieldDuplicateValueValidator.CaseSensitiveValue detection_item) :
    ∀ (vs seen : List SigmaValue),
      SigmahqFieldDuplicateValueValidator.scanRaw rule field seen vs =
        scanDup (dupNormalize detection_item)
          (fun v => [.SigmahqFieldDuplicateValueIssue [rule] field v.toStr])
          (seen.map (dupNormalize detection_item)) vs
  | [], seen => by simp [SigmahqFieldDuplicateValueValidator.scanRaw, scanDup]
  | v :: rest, seen => by
    have hmem : dupNormalize detection_item v ∈ seen.map (dupNormalize detection_item) ↔ v ∈ seen :=
      List.mem_map_of_injective (dupNormalize_injective_of_cs detection_item hcs)
    by_cases h : v ∈ seen
    · simp only [SigmahqFieldDuplicateValueValidator.scanRaw, scanDup, if_pos h,
        if_pos (hmem.mpr h)]
    · simp only [SigmahqFieldDuplicateValueValidator.scanRaw, scanDup, if_neg h,
        if_neg (fun hx => h (hmem.mp hx))]
      rw [scanRaw_eq_scanDup rule field detection_item hcs rest (seen ++ [v])]
      simp

/-- The lowercased scan is the generic scan keyed by the normalization, when
no case-sensitivity-implying modifier is present. -/
theorem scanLower_eq_scanDup (rule : SigmaRule) (field : Option PyStr) (detection_item : SigmaDetectionItem)
    (hcs : ¬ SigmahqFieldDuplicateValueValidator.CaseSensitiveValue detection_item) :
    ∀ (vs : List SigmaValue) (seen : List PyStr),
      SigmahqFieldDuplicateValueValidator.scanLower rule field seen vs =
        scanDup (dupNormalize detection_item)
          (fun v => [.SigmahqFieldDuplicateValueIssue [rule] field v.toStr])
          (seen.map Sum.inr) vs
  | [], seen => by simp [SigmahqFieldDuplicateValueValidator.scanLower, scanDup]
  | v :: rest, seen => by
    have hval : dupNormalize detection_item v = Sum.inr (pyLower v.toStr) := by
      simp [dupNormalize, hcs]
    have hmem : dupNormalize detection_item v ∈ seen.map Sum.inr ↔ pyLower v.toStr ∈ seen := by
      rw [hval]
      exact List.mem_map_of_injective (fun a b hab => by simpa using hab)
    by_cases h : pyLower v.toStr ∈ seen
    · simp only [SigmahqFieldDuplicateValueValidator.scanLower, scanDup, if_pos h,
        if_pos (hmem.mpr h)]
    · simp only [SigmahqFieldDuplicateValueValidator.scanLower, scanDup, if_neg h,
        if_neg (fun hx => h (hmem.mp hx))]
      rw [scanLower_eq_scanDup rule field detection_item hcs rest (seen ++ [pyLower v.toStr])]
      simp [hval]

/-- The duplicate-value check is the generic scan keyed by the claimed
normalization, started with nothing seen. -/
theorem dupValidate_eq_scanDup (rule : SigmaRule) (detection_item : SigmaDetectionItem) :
    SigmahqFieldDuplicateValueValidator.validate_detection_item rule detection_item =
      scanDup (dupNormalize detection_item)
        (fun v => [.SigmahqFieldDuplicateValueIssue [rule] detection_item.field v.toStr])
        [] detection_item.value := by
  unfold SigmahqFieldDuplicateValueValidator.validate_detection_item
  by_cases hcs : SigmahqFieldDuplicateValueValidator.CaseSensitiveValue detection_item
  · rw [if_pos hcs,
      scanRaw_eq_scanDup rule detection_item.field detection_item hcs detection_item.value []]
    rfl
  · rw [if_neg hcs,
      scanLower_eq_scanDup rule detection_item.field detection_item hcs detection_item.value []]
    rfl

/-- The generic scan emits at most one issue when the issue maker does. -/
theorem scanDup_length_le {κ : Type} [DecidableEq κ] (k : SigmaValue → κ)
    (mk : SigmaValue → List SigmaValidationIssue) (hmk : ∀ v, (mk v).length ≤ 1) :
    ∀ (vs : List SigmaValue) (seen : List κ), (scanDup k mk seen vs).length ≤ 1
  | [], seen => by simp [scanDup]
  | v :: rest, seen => by
    by_cases h : k v ∈ seen
    · simpa [scanDup, h] using hmk v
    · simp only [scanDup, if_neg h]
      exact scanDup_length_le k mk hmk rest (seen ++ [k v])

/-- The generic scan emits nothing iff the keys of the list are distinct and
none of them was seen before the scan started. -/
theorem scanDup_eq_nil_iff {κ : Type} [DecidableEq κ] (k : SigmaValue → κ)
    (mk : SigmaValue → List SigmaValidationIssue) (hmk : ∀ v, mk v ≠ []) :
    ∀ (vs : List SigmaValue) (seen : List κ),
      scanDup k mk seen vs = [] ↔ (vs.map k).Nodup ∧ ∀ v ∈ vs, k v ∉ seen
  | [], seen => by simp [scanDup]
  | v :: rest, seen => by
    by_cases h : k v ∈ seen
    · simp only [scanDup, if_pos h]
      constructor
      · intro he
        exact absurd he (hmk v)
      · rintro ⟨_, hall⟩
        exact absurd h (hall v (List.mem_cons_self v rest))
    · simp only [scanDup, if_neg h]
      rw [scanDup_eq_nil_iff k mk hmk rest (seen ++ [k v])]
      constructor
      · rintro ⟨hnd, hall⟩
        constructor
        · rw [List.map_cons, List.nodup_cons]
          refine ⟨fun hkv => ?_, hnd⟩
          obtain ⟨u, hu, hku⟩ := List.mem_map.mp hkv
          exact (hall u hu) (List.mem_append.mpr (Or.inr (by simp [hku])))
        · intro u hu
          rcases List.mem_cons.mp hu with rfl | hu2
          · exact h
          · intro hus
            exact (hall u hu2) (List.mem_append.mpr (Or.inl hus))
      · rintro ⟨hnd2, hall⟩
        rw [List.map_cons, List.nodup_cons] at hnd2
        refine ⟨hnd2.2, fun u hu hus => ?_⟩
        rcases List.mem_append.mp hus with h1 | h2
        · exact (hall u (List.mem_cons_of_mem v hu)) h1
        · rw [List.mem_singleton] at h2
          exact hnd2.1 (List.mem_map.mpr ⟨u, hu, h2⟩)

/-- When the generic scan fires, it fires on the first value whose key
duplicates the key of an earlier value (or of a pre-seen key), and it returns
just that value's issues. -/
theorem scanDup_first {κ : Type} [DecidableEq κ] (k : SigmaValue → κ)
    (mk : SigmaValue → List SigmaValidationIssue) :
    ∀ (vs : List SigmaValue) (seen : List κ), scanDup k mk seen vs ≠ [] →
      ∃ v l1 l2, vs = l1 ++ v :: l2 ∧ (k v ∈ seen ∨ k v ∈ l1.map k) ∧
        (l1.map k).Nodup ∧ (∀ u ∈ l1, k u ∉ seen) ∧ scanDup k mk seen vs = mk v
  | [], seen => by simp [scanDup]
  | v :: rest, seen => by
    by_cases h : k v ∈ seen
    · intro _
      exact ⟨v, [], rest, rfl, Or.inl h, by simp, by simp, by simp [scanDup, h]⟩
    · intro hne
      have hr : scanDup k mk (seen ++ [k v]) rest ≠ [] := by
        simpa [scanDup, if_neg h] using hne
      obtain ⟨w, l1, l2, hsplit, hmem, hnd, hnotseen, hout⟩ :=
        scanDup_first k mk rest (seen ++ [k v]) hr
      refine ⟨w, v :: l1, l2, by simp [hsplit], ?_, ?_, ?_, ?_⟩
      · rcases hmem with hseen | hl1
        · rcases List.mem_append.mp hseen with h1 | h2
          · exact Or.inl h1
          · right
            simp only [List.mem_singleton] at h2
            simp [h2]
        · right
          simp [hl1]
      · simp only [List.map_cons, List.nodup_cons]
        refine ⟨?_, hnd⟩
        rintro hkv
        obtain ⟨u, hu, hku⟩ := List.mem_map.mp hkv
        exact (hnotseen u hu) (List.mem_append.mpr (Or.inr (by simp [hku])))
      · intro u hu
        rcases List.mem_cons.mp hu with rfl | hu2
        · exact h
        · intro hus
          exact (hnotseen u hu2) (List.mem_append.mpr (Or.inl hus))
      · rw [show scanDup k mk seen (v :: rest) = scanDup k mk (seen ++ [k v]) rest from by
          simp [scanDup, if_neg h]]
        exact hout

/-- A list of mapped keys fails to be duplicate-free exactly when two
positions carry equal keys. -/
theorem not_nodup_map_iff_pair {α κ : Type} (l : List α) (f : α → κ) :
    ¬ (l.map f).Nodup ↔
      ∃ i j : Fin l.length, i.val < j.val ∧ f (l.get i) = f (l.get j) := by
  rw [List.nodup_iff_getElem?_ne_getElem?]
  push_neg
  constructor
  · rintro ⟨i, j, hij, hj, heq⟩
    rw [List.length_map] at hj
    have hi : i < l.length := lt_trans hij hj
    refine ⟨⟨i, hi⟩, ⟨j, hj⟩, hij, ?_⟩
    rw [List.getElem?_map, List.getElem?_map, List.getElem?_eq_getElem hi,
      List.getElem?_eq_getElem hj] at heq
    simpa using heq
  · rintro ⟨i, j, hij, heq⟩
    refine ⟨i.val, j.val, hij, by rw [List.length_map]; exact j.isLt, ?_⟩
    rw [List.getElem?_map, List.getElem?_map, List.getElem?_eq_getElem i.isLt,
      List.getElem?_eq_getElem j.isLt]
    simpa using heq

/-- C5: the duplicate-value check emits at most one issue; it fires iff two
positions of the value list are equal after normalization (raw identity under
a case-sensitivity-implying modifier, lowercased rendering otherwise); and
when it fires, the reported issue carries the rendering of the first value
that duplicates an earlier one in scan order. -/
theorem claim5_duplicate_value (rule : SigmaRule) (detection_item : SigmaDetectionItem) :
    (SigmahqFieldDuplicateValueValidator.validate_detection_item rule detection_item).length ≤ 1 ∧
    (SigmahqFieldDuplicateValueValidator.validate_detection_item rule detection_item ≠ [] ↔
      ∃ i j : Fin detection_item.value.length, i.val < j.val ∧
        dupNormalize detection_item (detection_item.value.get i) =
          dupNormalize detection_item (detection_item.value.get j)) ∧
    (∀ iss, SigmahqFieldDuplicateValueValidator.validate_detection_item rule detection_item = [iss] →
      ∃ v l1 l2, detection_item.value = l1 ++ v :: l2 ∧
        dupNormalize detection_item v ∈ l1.map (dupNormalize detection_item) ∧
        (l1.map (dupNormalize detection_item)).Nodup ∧
        iss = .SigmahqFieldDuplicateValueIssue [rule] detection_item.field v.toStr) := by
  rw [dupValidate_eq_scanDup rule detection_item]
  refine ⟨scanDup_length_le _ _ (fun v => by simp) _ _, ?_, ?_⟩
  · rw [Ne, scanDup_eq_nil_iff _ _ (fun v => by simp) _ _]
    simp only [List.not_mem_nil, not_false_iff, implies_true, and_true]
    exact not_nodup_map_iff_pair detection_item.value (dupNormalize detection_item)
  · intro iss hiss
    have hne : scanDup (dupNormalize detection_item)
        (fun v => [.SigmahqFieldDuplicateValueIssue [rule] detection_item.field v.toStr])
        [] detection_item.value ≠ [] := by
      rw [hiss]
      simp
    obtain ⟨v, l1, l2, hsplit, hmem, hnd, _, hout⟩ := scanDup_first _ _ _ _ hne
    rw [hiss] at hout
    refine ⟨v, l1, l2, hsplit, ?_, hnd, ?_⟩
    · rcases hmem with habs | hm
      · exact absurd habs (List.not_mem_nil _)
      · exact hm
    · simpa using hout

/-- Detection item with values [Foo, foo] and no modifiers. -/
def diFooPair : SigmaDetectionItem :=
  ⟨some (strOf "Image"), [], [.str (strOf "Foo"), .str (strOf "foo")]⟩

/-- C5 witness: the theorem applied to a concrete item with values
[Foo, foo] and no modifiers shows the check fires. -/
theorem claim5_duplicate_value_witness :
    SigmahqFieldDuplicateValueValidator.validate_detection_item ruleBase diFooPair ≠ [] :=
  (claim5_duplicate_value ruleBase diFooPair).2.1.mpr (by decide)

example : SigmahqFieldDuplicateValueValidator.validate_detection_item ruleBase
    ⟨some (strOf "Image"), [.SigmaCaseSensitiveModifier], [.str (strOf "Foo"), .str (strOf "foo")]⟩ = [] := by
  decide

example : SigmahqFieldDuplicateValueValidator.validate_detection_item ruleBase
    ⟨some (strOf "Image"), [.SigmaCaseSensitiveModifier], [.str (strOf "Foo"), .str (strOf "Foo")]⟩ ≠ [] := by
  decide

/-! Every issue a validator produces references the validated rule. -/

/-- Issues of the space-in-field-name item check reference the rule. -/
theorem spaceItem_rules (rule : SigmaRule) (di : SigmaDetectionItem) (i : SigmaValidationIssue)
    (hi : i ∈ SigmahqSpaceFieldNameValidator.validate_detection_item rule di) :
    i.rulesOf = [rule] := by
  unfold SigmahqSpaceFieldNameValidator.validate_detection_item at hi
  repeat' split at hi
  all_goals simp_all [SigmaValidationIssue.rulesOf]

/-- Issues of the cast item check reference the rule. -/
theorem castItem_rules (rule : SigmaRule) (fields unifields : List PyStr)
    (di : SigmaDetectionItem) (i : SigmaValidationIssue)
    (hi : i ∈ SigmahqFieldnameCastValidator.validate_detection_item rule fields unifields di) :
    i.rulesOf = [rule] := by
  unfold SigmahqFieldnameCastValidator.validate_detection_item at hi
  repeat' split at hi
  all_goals simp_all [SigmaValidationIssue.rulesOf]

/-- Issues of the invalid-field-name item check reference the rule. -/
theorem invalidItem_rules (rule : SigmaRule) (unifields : List PyStr)
    (di : SigmaDetectionItem) (i : SigmaValidationIssue)
    (hi : i ∈ SigmahqInvalidFieldnameValidator.validate_detection_item rule unifields di) :
    i.rulesOf = [rule] := by
  unfold SigmahqInvalidFieldnameValidator.validate_detection_item at hi
  repeat' split at hi
  all_goals simp_all [SigmaValidationIssue.rulesOf]

/-- Issues of the invalid-all-modifier item check reference the rule. -/
theorem allModItem_rules (rule : SigmaRule) (di : SigmaDetectionItem) (i : SigmaValidationIssue)
    (hi : i ∈ SigmahqInvalidAllModifierValidator.validate_detection_item rule di) :
    i.rulesOf = [rule] := by
  unfold SigmahqInvalidAllModifierValidator.validate_detection_item at hi
  repeat' split at hi
  all_goals simp_all [SigmaValidationIssue.rulesOf]

/-- Every issue of the generic duplicate scan is one of the maker's. -/
theorem scanDup_mem {κ : Type} [DecidableEq κ] (k : SigmaValue → κ)
    (mk : SigmaValue → List SigmaValidationIssue) :
    ∀ (vs : List SigmaValue) (seen : List κ) (i : SigmaValidationIssue),
      i ∈ scanDup k mk seen vs → ∃ v, i ∈ mk v
  | [], seen, i => by simp [scanDup]
  | v :: rest, seen, i => by
    by_cases h : k v ∈ seen
    · simp only [scanDup, if_pos h]
      exact fun hi => ⟨v, hi⟩
    · simp only [scanDup, if_neg h]
      exact scanDup_mem k mk rest (seen ++ [k v]) i

/-- Issues of the duplicate-value item check reference the rule. -/
theorem dupItem_rules (rule : SigmaRule) (di : SigmaDetectionItem) (i : SigmaValidationIssue)
    (hi : i ∈ SigmahqFieldDuplicateValueValidator.validate_detection_item rule di) :
    i.rulesOf = [rule] := by
  rw [dupValidate_eq_scanDup rule di] at hi
  obtain ⟨v, hv⟩ := scanDup_mem _ _ di.value [] i hi
  rw [List.mem_singleton] at hv
  rw [hv]
  rfl

/-- Issues of the user-field item check reference the rule. -/
theorem userItem_rules (rule : SigmaRule) (di : SigmaDetectionItem) (i : SigmaValidationIssue)
    (hi : i ∈ SigmahqFieldUserValidator.validate_detection_item rule di) :
    i.rulesOf = [rule] := by
  unfold SigmahqFieldUserValidator.validate_detection_item at hi
  repeat' split at hi
  all_goals simp_all [SigmaValidationIssue.rulesOf]

/-- Issues of the space-in-field-name traversal reference the rule. -/
theorem spaceValidate_rules (rule : SigmaRule) (i : SigmaValidationIssue)
    (hi : i ∈ SigmahqSpaceFieldNameValidator.validate rule) : i.rulesOf = [rule] := by
  unfold SigmahqSpaceFieldNameValidator.validate at hi
  obtain ⟨di, _, hdi⟩ := List.mem_flatMap.mp hi
  exact spaceItem_rules rule di i hdi

/-- Issues of the cast traversal reference the rule. -/
theorem castValidate_rules (config : ConfigHQ) (rule : SigmaRule) (i : SigmaValidationIssue)
    (hi : i ∈ SigmahqFieldnameCastValidator.validate config rule) : i.rulesOf = [rule] := by
  unfold SigmahqFieldnameCastValidator.validate at hi
  split at hi
  · obtain ⟨di, _, hdi⟩ := List.mem_flatMap.mp hi
    exact castItem_rules rule _ _ di i hdi
  · exact absurd hi (List.not_mem_nil i)

/-- Issues of the invalid-field-name traversal reference the rule. -/
theorem invalidValidate_rules (config : ConfigHQ) (rule : SigmaRule) (i : SigmaValidationIssue)
    (hi : i ∈ SigmahqInvalidFieldnameValidator.validate config rule) : i.rulesOf = [rule] := by
  unfold SigmahqInvalidFieldnameValidator.validate at hi
  split at hi
  · obtain ⟨di, _, hdi⟩ := List.mem_flatMap.mp hi
    exact invalidItem_rules rule _ di i hdi
  · exact absurd hi (List.not_mem_nil i)

/-- Issues of the invalid-all-modifier traversal reference the rule. -/
theorem allModValidate_rules (rule : SigmaRule) (i : SigmaValidationIssue)
    (hi : i ∈ SigmahqInvalidAllModifierValidator.validate rule) : i.rulesOf = [rule] := by
  unfold SigmahqInvalidAllModifierValidator.validate at hi
  obtain ⟨di, _, hdi⟩ := List.mem_flatMap.mp hi
  exact allModItem_rules rule di i hdi

/-- Issues of the duplicate-value traversal reference the rule. -/
theorem dupValidate_rules (rule : SigmaRule) (i : SigmaValidationIssue)
    (hi : i ∈ SigmahqFieldDuplicateValueValidator.validate rule) : i.rulesOf = [rule] := by
  unfold SigmahqFieldDuplicateValueValidator.validate at hi
  obtain ⟨di, _, hdi⟩ := List.mem_flatMap.mp hi
  exact dupItem_rules rule di i hdi

/-- Issues of the user-field traversal reference the rule. -/
theorem userValidate_rules (rule : SigmaRule) (i : SigmaValidationIssue)
    (hi : i ∈ SigmahqFieldUserValidator.validate rule) : i.rulesOf = [rule] := by
  unfold SigmahqFieldUserValidator.validate at hi
  obtain ⟨di, _, hdi⟩ := List.mem_flatMap.mp hi
  exact userItem_rules rule di i hdi

/-- Issues of the status-existence check reference the rule. -/
theorem statusExValidate_rules (rule : SigmaRule) (i : SigmaValidationIssue)
    (hi : i ∈ SigmahqStatusExistenceValidator.validate rule) : i.rulesOf = [rule] := by
  unfold SigmahqStatusExistenceValidator.validate at hi
  repeat' split at hi
  all_goals simp_all [SigmaValidationIssue.rulesOf]

/-- Issues of the status-value check reference the rule. -/
theorem statusValidate_rules (rule : SigmaRule) (i : SigmaValidationIssue)
    (hi : i ∈ SigmahqStatusValidator.validate rule) : i.rulesOf = [rule] := by
  unfold SigmahqStatusValidator.validate at hi
  repeat' split at hi
  all_goals simp_all [SigmaValidationIssue.rulesOf]

/-- Issues of the date-existence check reference the rule. -/
theorem dateExValidate_rules (rule : SigmaRule) (i : SigmaValidationIssue)
    (hi : i ∈ SigmahqDateExistenceValidator.validate rule) : i.rulesOf = [rule] := by
  unfold SigmahqDateExistenceValidator.validate at hi
  repeat' split at hi
  all_goals simp_all [SigmaValidationIssue.rulesOf]

/-- Issues of the description-existence check reference the rule. -/
theorem descExValidate_rules (rule : SigmaRule) (i : SigmaValidationIssue)
    (hi : i ∈ SigmahqDescriptionExistenceValidator.validate rule) : i.rulesOf = [rule] := by
  unfold SigmahqDescriptionExistenceValidator.validate at hi
  repeat' split at hi
  all_goals simp_all [SigmaValidationIssue.rulesOf]

/-- Issues of the description-length check reference the rule. -/
theorem descLenValidate_rules (rule : SigmaRule) (i : SigmaValidationIssue)
    (hi : i ∈ SigmahqDescriptionLengthValidator.validate rule) : i.rulesOf = [rule] := by
  unfold SigmahqDescriptionLengthValidator.validate at hi
  repeat' split at hi
  all_goals simp_all [SigmaValidationIssue.rulesOf]

/-- Issues of the level-existence check reference the rule. -/
theorem levelExValidate_rules (rule : SigmaRule) (i : SigmaValidationIssue)
    (hi : i ∈ SigmahqLevelExistenceValidator.validate rule) : i.rulesOf = [rule] := by
  unfold SigmahqLevelExistenceValidator.validate at hi
  repeat' split at hi
  all_goals simp_all [SigmaValidationIssue.rulesOf]

/-- Issues appended by the capitalization loop reference the rule. -/
theorem capitalGo_rules (rule : SigmaRule) :
    ∀ (fps : List PyStr) (acc out : List SigmaValidationIssue),
      SigmahqFalsepositivesCapitalValidator.go rule fps acc = some out →
      ∀ i ∈ out, i ∈ acc ∨ i.rulesOf = [rule]
  | [], acc, out => by
    simp only [SigmahqFalsepositivesCapitalValidator.go, Option.some.injEq]
    rintro rfl i hi
    exact Or.inl hi
  | fp :: rest, acc, out => by
    cases fp with
    | nil => simp [SigmahqFalsepositivesCapitalValidator.go]
    | cons c cs =>
      by_cases hc : c.toUpper ≠ c
      · simp only [SigmahqFalsepositivesCapitalValidator.go, if_pos hc]
        intro hgo i hi
        rcases capitalGo_rules rule rest _ out hgo i hi with hacc | hr
        · rcases List.mem_append.mp hacc with h1 | h2
          · exact Or.inl h1
          · rw [List.mem_singleton] at h2
            rw [h2]
            exact Or.inr rfl
        · exact Or.inr hr
      · simp only [SigmahqFalsepositivesCapitalValidator.go, if_neg hc]
        exact capitalGo_rules rule rest acc out

/-- Issues of the banned-word check reference the rule. -/
theorem bannedValidate_rules (config : ConfigHQ) (rule : SigmaRule) (i : SigmaValidationIssue)
    (hi : i ∈ SigmahqFalsepositivesBannedWordValidator.validate config rule) :
    i.rulesOf = [rule] := by
  unfold SigmahqFalsepositivesBannedWordValidator.validate at hi
  simp only [List.mem_flatMap, List.mem_filterMap] at hi
  obtain ⟨e, _, t, _, w, _, hif⟩ := hi
  split at hif
  · rw [Option.some.injEq] at hif
    rw [hif.symm]
    rfl
  · cases hif

/-- Issues of the typo-word check reference the rule. -/
theorem typoValidate_rules (config : ConfigHQ) (rule : SigmaRule) (i : SigmaValidationIssue)
    (hi : i ∈ SigmahqFalsepositivesTypoWordValidator.validate config rule) :
    i.rulesOf = [rule] := by
  unfold SigmahqFalsepositivesTypoWordValidator.validate at hi
  simp only [List.mem_flatMap, List.mem_filterMap] at hi
  obtain ⟨e, _, t, _, w, _, hif⟩ := hi
  split at hif
  · rw [Option.some.injEq] at hif
    rw [hif.symm]
    rfl
  · cases hif

/-- Issues of the link-marker loop reference the rule. -/
theorem linkGo_rules (rule : SigmaRule) (d : PyStr) :
    ∀ (links : List PyStr) (i : SigmaValidationIssue),
      i ∈ SigmahqLinkInDescriptionValidator.go rule d links → i.rulesOf = [rule]
  | [], i => by simp [SigmahqLinkInDescriptionValidator.go]
  | link :: rest, i => by
    by_cases h : strContains (pyLower d) link
    · simp only [SigmahqLinkInDescriptionValidator.go, if_pos h, List.mem_singleton]
      rintro rfl
      rfl
    · simp only [SigmahqLinkInDescriptionValidator.go, if_neg h]
      exact linkGo_rules rule d rest i

/-- Issues of the link-in-description check reference the rule. -/
theorem linkValidate_rules (config : ConfigHQ) (rule : SigmaRule) (i : SigmaValidationIssue)
    (hi : i ∈ SigmahqLinkInDescriptionValidator.validate config rule) : i.rulesOf = [rule] := by
  unfold SigmahqLinkInDescriptionValidator.validate at hi
  split at hi
  · split at hi
    · exact linkGo_rules rule _ _ i hi
    · exact absurd hi (List.not_mem_nil i)
  · exact absurd hi (List.not_mem_nil i)

/-- Issues of the unknown-field check reference the rule. -/
theorem unknownValidate_rules (rule : SigmaRule) (i : SigmaValidationIssue)
    (hi : i ∈ SigmahqUnknownFieldValidator.validate rule) : i.rulesOf = [rule] := by
  unfold SigmahqUnknownFieldValidator.validate at hi
  repeat' split at hi
  all_goals simp_all [SigmaValidationIssue.rulesOf]

/-- C2: every issue produced by a run of the full check set references its
originating rule (its stored rule list is exactly the validated rule); in
particular, for every rule whose level is absent the missing-level check
emits exactly one issue whose rule reference is that rule itself. -/
theorem claim2_issue_rules :
    (∀ (config : ConfigHQ) (rule : SigmaRule) (l : List SigmaValidationIssue),
      fullValidate config rule = some l → ∀ i ∈ l, i.rulesOf = [rule]) ∧
    (∀ rule : SigmaRule, rule.level = none →
      SigmahqLevelExistenceValidator.validate rule =
        [.SigmahqLevelExistenceIssue [rule]]) := by
  constructor
  · intro config rule l hful i hi
    unfold fullValidate at hful
    cases hcap : SigmahqFalsepositivesCapitalValidator.validate rule with
    | none =>
      rw [hcap] at hful
      cases hful
    | some capital =>
      rw [hcap] at hful
      rw [Option.some.injEq] at hful
      rw [hful.symm] at hi
      simp only [List.mem_append] at hi
      rcases hi with ((((((((((((((((h | h) | h) | h) | h) | h) | h) | h) | h) | h) | h)
        | h) | h) | h) | h) | h) | h)
      · exact statusExValidate_rules rule i h
      · exact statusValidate_rules rule i h
      · exact dateExValidate_rules rule i h
      · exact descExValidate_rules rule i h
      · exact descLenValidate_rules rule i h
      · exact levelExValidate_rules rule i h
      · rcases capitalGo_rules rule rule.falsepositives [] capital hcap i h with habs | hr
        · exact absurd habs (List.not_mem_nil i)
        · exact hr
      · exact bannedValidate_rules config rule i h
      · exact typoValidate_rules config rule i h
      · exact linkValidate_rules config rule i h
      · exact unknownValidate_rules rule i h
      · exact spaceValidate_rules rule i h
      · exact castValidate_rules config rule i h
      · exact invalidValidate_rules config rule i h
      · exact allModValidate_rules rule i h
      · exact dupValidate_rules rule i h
      · exact userValidate_rules rule i h
  · intro rule hl
    unfold SigmahqLevelExistenceValidator.validate
    rw [hl]

/-- C2 witness: the theorem applied to the concrete run of the full check set
on `ruleC7` under the catalog `cfgOther`, at its first issue, and to the
missing-level case of `ruleC7`. -/
theorem claim2_issue_rules_witness :
    SigmaValidationIssue.rulesOf (.SigmahqStatusExistenceIssue [ruleC7]) = [ruleC7] ∧
    SigmahqLevelExistenceValidator.validate ruleC7 =
      [.SigmahqLevelExistenceIssue [ruleC7]] :=
  ⟨claim2_issue_rules.1 cfgOther ruleC7
      [.SigmahqStatusExistenceIssue [ruleC7],
       .SigmahqDateExistenceIssue [ruleC7],
       .SigmahqDescriptionExistenceIssue [ruleC7],
       .SigmahqLevelExistenceIssue [ruleC7],
       .SigmahqSpaceFieldNameIssue [ruleC7] (strOf "User Name")]
      (by decide) (.SigmahqStatusExistenceIssue [ruleC7]) (by decide),
   claim2_issue_rules.2 ruleC7 rfl⟩

/-- Splitting never produces the empty list. -/
theorem pySplit_ne_nil : ∀ s : PyStr, pySplit s ≠ []
  | [] => by simp [pySplit]
  | c :: rest => by
    simp only [pySplit]
    cases h : pySplit rest with
    | nil => simp
    | cons t ts => by_cases hc : c = ' ' <;> simp [hc]

/-- Splitting distributes over a space: Python `(a + " " + b).split(" ")` is
the two splits concatenated. -/
theorem pySplit_append_space : ∀ (a b : PyStr), pySplit (a ++ ' ' :: b) = pySplit a ++ pySplit b
  | [], b => by
    simp only [List.nil_append, pySplit]
    cases h : pySplit b with
    | nil => exact absurd h (pySplit_ne_nil b)
    | cons t ts => simp
  | c :: a, b => by
    have ih := pySplit_append_space a b
    cases ha : pySplit a with
    | nil => exact absurd ha (pySplit_ne_nil a)
    | cons t ts =>
      rw [ha] at ih
      show pySplit (c :: (a ++ ' ' :: b)) = pySplit (c :: a) ++ pySplit b
      rw [pySplit, pySplit, ih, ha]
      by_cases hc : c = ' ' <;> simp [hc]

/-- Two consecutive spaces, a leading space or a trailing space produce an
empty token in the split. -/
theorem empty_token_of_space (s : PyStr)
    (h : (∃ a b, s = a ++ ' ' :: ' ' :: b) ∨ (∃ b, s = ' ' :: b) ∨ ∃ a, s = a ++ [' ']) :
    [] ∈ pySplit s := by
  rcases h with ⟨a, b, rfl⟩ | ⟨b, rfl⟩ | ⟨a, rfl⟩
  · rw [show a ++ ' ' :: ' ' :: b = a ++ ' ' :: (' ' :: b) from rfl, pySplit_append_space]
    refine List.mem_append.mpr (Or.inr ?_)
    simp only [pySplit]
    cases hb : pySplit b with
    | nil => exact absurd hb (pySplit_ne_nil b)
    | cons t ts => simp
  · simp only [pySplit]
    cases hb : pySplit b with
    | nil => exact absurd hb (pySplit_ne_nil b)
    | cons t ts => simp
  · rw [show a ++ [' '] = a ++ ' ' :: [] from rfl, pySplit_append_space]
    simp [pySplit]

/-- The empty needle occurs in every string (Python `"" in s` is True). -/
theorem strContains_empty_needle : ∀ t : PyStr, strContains t [] = true
  | [] => rfl
  | _ :: _ => rfl

/-- Counting over a flat map is bounded below by the count over any one
member's image. -/
theorem countP_flatMap_le {α β : Type} (p : β → Bool) (f : α → List β) :
    ∀ (l : List α) (x : α), x ∈ l → ((f x).countP p) ≤ ((l.flatMap f).countP p)
  | [], x => by simp
  | y :: l, x => by
    intro hx
    rcases List.mem_cons.mp hx with rfl | hx2
    · simp only [List.flatMap_cons, List.countP_append]
      omega
    · simp only [List.flatMap_cons, List.countP_append]
      have := countP_flatMap_le p f l x hx2
      omega

/-- Against the empty token, every typo-catalog entry passes the substring
test, so the inner filter yields one matching issue per catalog entry. -/
theorem countP_typo_filterMap_empty (rule : SigmaRule) :
    ∀ ts : List PyStr,
      ((ts.filterMap fun typo =>
          if strContains typo (pyStrip (pyLower ([] : PyStr))) then
            some (SigmaValidationIssue.SigmahqFalsepositivesTypoWordIssue [rule] [])
          else none).countP
        (fun i => decide (i = .SigmahqFalsepositivesTypoWordIssue [rule] []))) = ts.length
  | [] => rfl
  | t :: ts => by
    have hc : strContains t (pyStrip (pyLower ([] : PyStr))) = true := strContains_empty_needle t
    simp only [List.filterMap_cons, hc, if_true, List.countP_cons,
      countP_typo_filterMap_empty rule ts]
    simp

/-- C10: for every rule with a falsepositive entry holding two consecutive
spaces, a leading space or a trailing space, splitting on spaces yields an
empty token, and since the empty string is a substring of every typo-word
entry, the falsepositive-typo-word check emits an issue carrying the empty
token for every entry of the typo-word catalog (at least one per entry). -/
theorem claim10_typo_empty_token (config : ConfigHQ) (rule : SigmaRule) (e : PyStr)
    (he : e ∈ rule.falsepositives)
    (hsp : (∃ a b, e = a ++ ' ' :: ' ' :: b) ∨ (∃ b, e = ' ' :: b) ∨ ∃ a, e = a ++ [' ']) :
    [] ∈ pySplit e ∧
    config.sigmahq_fp_typo_word.length ≤
      (SigmahqFalsepositivesTypoWordValidator.validate config rule).countP
        (fun i => decide (i = .SigmahqFalsepositivesTypoWordIssue [rule] [])) := by
  have hemp := empty_token_of_space e hsp
  refine ⟨hemp, ?_⟩
  unfold SigmahqFalsepositivesTypoWordValidator.validate
  have h1 := countP_typo_filterMap_empty rule config.sigmahq_fp_typo_word
  have h2 : ((config.sigmahq_fp_typo_word.filterMap fun typo =>
        if strContains typo (pyStrip (pyLower ([] : PyStr))) then
          some (SigmaValidationIssue.SigmahqFalsepositivesTypoWordIssue [rule] [])
        else none).countP
      (fun i => decide (i = SigmaValidationIssue.SigmahqFalsepositivesTypoWordIssue [rule] []))) ≤
      (((pySplit e).flatMap fun fp =>
        config.sigmahq_fp_typo_word.filterMap fun typo =>
          if strContains typo (pyStrip (pyLower fp)) then
            some (SigmaValidationIssue.SigmahqFalsepositivesTypoWordIssue [rule] fp)
          else none).countP
      (fun i => decide (i = SigmaValidationIssue.SigmahqFalsepositivesTypoWordIssue [rule] []))) :=
    countP_flatMap_le
      (fun i => decide (i = SigmaValidationIssue.SigmahqFalsepositivesTypoWordIssue [rule] []))
      (fun fp => config.sigmahq_fp_typo_word.filterMap fun typo =>
        if strContains typo (pyStrip (pyLower fp)) then
          some (SigmaValidationIssue.SigmahqFalsepositivesTypoWordIssue [rule] fp)
        else none)
      (pySplit e) [] hemp
  have h3 : (((pySplit e).flatMap fun fp =>
        config.sigmahq_fp_typo_word.filterMap fun typo =>
          if strContains typo (pyStrip (pyLower fp)) then
            some (SigmaValidationIssue.SigmahqFalsepositivesTypoWordIssue [rule] fp)
          else none).countP
      (fun i => decide (i = SigmaValidationIssue.SigmahqFalsepositivesTypoWordIssue [rule] []))) ≤
      ((rule.falsepositives.flatMap fun fp_entry =>
        (pySplit fp_entry).flatMap fun fp =>
          config.sigmahq_fp_typo_word.filterMap fun typo =>
            if strContains typo (pyStrip (pyLower fp)) then
              some (SigmaValidationIssue.SigmahqFalsepositivesTypoWordIssue [rule] fp)
            else none).countP
      (fun i => decide (i = SigmaValidationIssue.SigmahqFalsepositivesTypoWordIssue [rule] []))) :=
    countP_flatMap_le
      (fun i => decide (i = SigmaValidationIssue.SigmahqFalsepositivesTypoWordIssue [rule] []))
      (fun fp_entry => (pySplit fp_entry).flatMap fun fp =>
        config.sigmahq_fp_typo_word.filterMap fun typo =>
          if strContains typo (pyStrip (pyLower fp)) then
            some (SigmaValidationIssue.SigmahqFalsepositivesTypoWordIssue [rule] fp)
          else none)
      rule.falsepositives e he
  omega

/-- A rule with a falsepositive entry holding two consecutive spaces. -/
def ruleFpDouble : SigmaRule :=
  { ruleBase with falsepositives := [strOf "Legitimate  use"] }

/-- C10 witness: the theorem applied to the concrete catalog `cfgOther` (two
typo words) and the entry "Legitimate  use". -/
theorem claim10_typo_empty_token_witness :
    [] ∈ pySplit (strOf "Legitimate  use") ∧
    cfgOther.sigmahq_fp_typo_word.length ≤
      (SigmahqFalsepositivesTypoWordValidator.validate cfgOther ruleFpDouble).countP
        (fun i => decide (i = .SigmahqFalsepositivesTypoWordIssue [ruleFpDouble] [])) :=
  claim10_typo_empty_token cfgOther ruleFpDouble (strOf "Legitimate  use") (by decide)
    (Or.inl ⟨strOf "Legitimate", strOf "use", by decide⟩)

/-- C9: the two duplicated definitions of the invalid-all-modifier validator
(field.py lines 117-129 and 189-201) are behaviorally equivalent: on every
rule and detection item they produce identical issue lists (hence the same
firing condition, severity and carried field). -/
theorem claim9_duplicate_definitions_agree (rule : SigmaRule) (detection_item : SigmaDetectionItem) :
    SigmahqInvalidAllModifierValidatorFirst.validate_detection_item rule detection_item =
      SigmahqInvalidAllModifierValidator.validate_detection_item rule detection_item := rfl
